import Mathlib

/-!
Verification of the `analyzer` package of the sales-analysis repository:
a shallow embedding of `ParseCSV` and `AnalyzeData`
(internal/analyzer, mirrored line by line), together with proofs of the
behavioural properties stated in the specification.

Modelling conventions:
* Go `float64` values are modelled by `GoFloat`: an exact rational for
  finite values plus the special values NaN, +Inf and -Inf.  Rounding of
  decimal literals to binary64 is not modelled; the arithmetic used by the
  code (one addition and one int-by-float multiplication per record) is
  modelled symbolically with the IEEE special-value rules.
* Go `int` is modelled by unbounded `Int` (no claim touches 64-bit
  overflow, and `strconv.Atoi`'s range error is likewise not modelled).
* The CSV reader (`encoding/csv` with `FieldsPerRecord = -1`) is modelled
  as a stream of events: each successful `Read` yields the row's fields,
  a failing `Read` yields `failure`; the end of the event list is `io.EOF`.
  Opening the file is modelled by an `Option`: `none` means `os.Open`
  failed.
* Go map iteration order is unspecified, so the analysis is defined as
  `AnalyzeDataOrd`, parameterised by the order in which the per-product
  totals are visited; `AnalyzeData` instantiates it with the insertion
  order of the association list.  Theorems about the second pass quantify
  over every permutation of the accumulated totals.
-/

namespace SalesAnalysis

/-- Model of a Go `float64` value: exact rational finite values plus the
IEEE special values. -/
inductive GoFloat where
  | finite (q : ℚ)
  | nan
  | posInf
  | negInf
  deriving DecidableEq

/-- IEEE-style addition on `GoFloat`: NaN propagates, opposite infinities
give NaN, an infinity absorbs finite values, finite values add exactly. -/
def GoFloat.add : GoFloat → GoFloat → GoFloat
  | .nan, _ => .nan
  | _, .nan => .nan
  | .posInf, .negInf => .nan
  | .negInf, .posInf => .nan
  | .posInf, _ => .posInf
  | _, .posInf => .posInf
  | .negInf, _ => .negInf
  | _, .negInf => .negInf
  | .finite a, .finite b => .finite (a + b)

/-- `float64(n) * x` for an integer `n`: the conversion plus IEEE-style
multiplication (zero times an infinity is NaN). -/
def GoFloat.mulInt (n : Int) : GoFloat → GoFloat
  | .finite q => .finite (n * q)
  | .nan => .nan
  | .posInf => if 0 < n then .posInf else if n < 0 then .negInf else .nan
  | .negInf => if 0 < n then .negInf else if n < 0 then .posInf else .nan

/-- Numeric value of a list of decimal digit characters. -/
def digitsVal (cs : List Char) : Nat :=
  cs.foldl (fun a c => a * 10 + (c.toNat - Char.toNat (Char.ofNat 48))) 0

/-- Models `strconv.Atoi`: an optional single sign followed by at least
one decimal digit.  (The `int64` range check of the real function is not
modelled.) -/
def Atoi (s : String) : Option Int :=
  let (sign, rest) :=
    match s.toList with
    | '+' :: r => ((1 : Int), r)
    | '-' :: r => ((-1 : Int), r)
    | r => ((1 : Int), r)
  if rest.isEmpty then none
  else if rest.all Char.isDigit then some (sign * (digitsVal rest : Int))
  else none

/-- Models the special-value cases of `strconv.ParseFloat`: the whole
string, case-insensitively, is `nan`, or an optionally signed `inf` or
`infinity`. -/
def parseSpecial (s : String) : Option GoFloat :=
  let t := s.toList.map Char.toLower
  if t = String.toList "nan" then some GoFloat.nan
  else
    let (neg, u) :=
      match t with
      | '+' :: r => (false, r)
      | '-' :: r => (true, r)
      | r => (false, r)
    if u = String.toList "inf" ∨ u = String.toList "infinity" then
      some (if neg then GoFloat.negInf else GoFloat.posInf)
    else none

/-- Splits a leading run of decimal digits from a character list. -/
def takeDigits : List Char → (List Char × List Char)
  | [] => ([], [])
  | c :: cs =>
    if c.isDigit then
      let p := takeDigits cs
      (c :: p.1, p.2)
    else ([], c :: cs)

/-- Exponent part of a decimal floating literal: optional sign, then at
least one digit. -/
def parseExpPart (cs : List Char) : Option Int :=
  let (sign, r) :=
    match cs with
    | '+' :: r => ((1 : Int), r)
    | '-' :: r => ((-1 : Int), r)
    | r => ((1 : Int), r)
  if r.isEmpty then none
  else if r.all Char.isDigit then some (sign * (digitsVal r : Int))
  else none

/-- Models the decimal case of `strconv.ParseFloat`: optional sign,
digits with at most one point (at least one digit in the mantissa),
optional exponent.  The value is kept as an exact rational; rounding to
binary64, hexadecimal floats and digit-separating underscores are not
modelled. -/
def parseDecimal (cs : List Char) : Option ℚ :=
  let (neg, cs1) :=
    match cs with
    | '+' :: r => (false, r)
    | '-' :: r => (true, r)
    | r => (false, r)
  let ip := takeDigits cs1
  let fp :=
    match ip.2 with
    | '.' :: r => takeDigits r
    | r => ([], r)
  if ip.1.isEmpty ∧ fp.1.isEmpty then none
  else
    let mant : ℚ := (digitsVal (ip.1 ++ fp.1) : ℚ) / ((10 : ℚ) ^ fp.1.length)
    let signed : ℚ := if neg then -mant else mant
    match fp.2 with
    | [] => some signed
    | 'e' :: r => (parseExpPart r).map (fun e => signed * (10 : ℚ) ^ e)
    | 'E' :: r => (parseExpPart r).map (fun e => signed * (10 : ℚ) ^ e)
    | _ => none

/-- Models `strconv.ParseFloat` (64-bit): special values first, then the
decimal grammar. -/
def ParseFloat (s : String) : Option GoFloat :=
  match parseSpecial s with
  | some v => some v
  | none => (parseDecimal s.toList).map GoFloat.finite

/-- `SaleRecord` of internal/analyzer: one validated sales transaction. -/
structure SaleRecord where
  Date : String
  Product : String
  Quantity : Int
  Price : GoFloat
  deriving DecidableEq

/-- `AnalysisResult` of internal/analyzer: the aggregate of the analysis. -/
structure AnalysisResult where
  TotalTransactions : Nat
  TotalRevenue : GoFloat
  MostPopularProduct : String
  MaxQuantitySoldUnits : Int
  deriving DecidableEq

/-- One event of the CSV reader: a successfully read row (its fields), or
a read failure that is not `io.EOF`.  The end of the event list models
`io.EOF`. -/
inductive ReadEvent where
  | row (fields : List String)
  | failure
  deriving DecidableEq

/-- The error outcomes of `ParseCSV`: `os.Open` failed, the header read
failed with a non-EOF error, or a data-row read failed with a non-EOF
error. -/
inductive ParseErr where
  | openFailed
  | headerReadFailed
  | rowReadFailed
  deriving DecidableEq

/-- The per-row body of `ParseCSV`'s loop: the field-count check, then
`strconv.Atoi` on field 3, then `strconv.ParseFloat` on field 4; only a
row passing all three checks yields a `SaleRecord`. -/
def parseRow (row : List String) : Option SaleRecord :=
  if row.length ≠ 4 then none
  else
    match Atoi (row.getD 2 "") with
    | none => none
    | some quantity =>
      match ParseFloat (row.getD 3 "") with
      | none => none
      | some price =>
        some { Date := row.getD 0 "", Product := row.getD 1 "",
               Quantity := quantity, Price := price }

/-- The row loop of `ParseCSV`: reads events until EOF, appending each
accepted record; a `failure` event aborts with no result. -/
def parseLoop : List ReadEvent → List SaleRecord → Option (List SaleRecord)
  | [], acc => some acc
  | ReadEvent.failure :: _, _ => none
  | ReadEvent.row fields :: rest, acc =>
    match parseRow fields with
    | none => parseLoop rest acc
    | some record => parseLoop rest (acc ++ [record])

/-- `ParseCSV`: `none` models a failed `os.Open`; otherwise the first
event is the header read (a non-EOF failure there is fatal, EOF is
tolerated), and the remaining events feed the row loop. -/
def ParseCSV : Option (List ReadEvent) → Except ParseErr (List SaleRecord)
  | none => Except.error ParseErr.openFailed
  | some [] => Except.ok []
  | some (ReadEvent.failure :: _) => Except.error ParseErr.headerReadFailed
  | some (ReadEvent.row _ :: rest) =>
    match parseLoop rest [] with
    | none => Except.error ParseErr.rowReadFailed
    | some records => Except.ok records

/-- `productQuantities[p] += q` on the association-list model of the Go
map: update in place if the key is present, append it otherwise. -/
def bumpQty : List (String × Int) → String → Int → List (String × Int)
  | [], p, q => [(p, q)]
  | (k, v) :: rest, p, q =>
    if k = p then (k, v + q) :: rest else (k, v) :: bumpQty rest p q

/-- State of `AnalyzeData`'s first loop: the running revenue and the
per-product quantity map. -/
structure LoopState where
  revenue : GoFloat
  quantities : List (String × Int)

/-- Body of `AnalyzeData`'s first loop: add `float64(Quantity) * Price`
to the revenue and bump the product's total. -/
def analyzeStep (st : LoopState) (r : SaleRecord) : LoopState :=
  { revenue := st.revenue.add (GoFloat.mulInt r.Quantity r.Price),
    quantities := bumpQty st.quantities r.Product r.Quantity }

/-- The per-product totals accumulated by the first loop, in key
insertion order. -/
def accumQuantities (records : List SaleRecord) : List (String × Int) :=
  (records.foldl analyzeStep { revenue := GoFloat.finite 0, quantities := [] }).quantities

/-- Body of `AnalyzeData`'s second loop: a product whose total is
strictly greater than the running maximum replaces the maximum and the
key; otherwise (ties included) the state is kept. -/
def selectMax (st : Int × String) (e : String × Int) : Int × String :=
  if e.2 > st.1 then (e.2, e.1) else st

/-- `AnalyzeData`, parameterised by the order in which the per-product
totals are visited by the second loop (Go map iteration order is
unspecified). -/
def AnalyzeDataOrd (records : List SaleRecord) (order : List (String × Int)) :
    AnalysisResult :=
  let st := records.foldl analyzeStep { revenue := GoFloat.finite 0, quantities := [] }
  let best := order.foldl selectMax (0, "")
  { TotalTransactions := records.length
    TotalRevenue := st.revenue
    MostPopularProduct := best.2
    MaxQuantitySoldUnits := best.1 }

/-- `AnalyzeData` with the insertion order of the association list as the
iteration order of the map. -/
def AnalyzeData (records : List SaleRecord) : AnalysisResult :=
  AnalyzeDataOrd records (accumQuantities records)

/-- Specification-side: the product keys appearing in the input, in
order, with duplicates. -/
def products (records : List SaleRecord) : List String :=
  records.map SaleRecord.Product

/-- Specification-side: the summed quantity of the records carrying the
given product key. -/
def sumQty (records : List SaleRecord) (p : String) : Int :=
  ((records.filter (fun r => r.Product == p)).map SaleRecord.Quantity).sum

/-- Specification-side: the revenue fold named by the spec — left to
right, in input order, starting at `0.0`, accumulating
`quantity × price`. -/
def revenueFold (records : List SaleRecord) : GoFloat :=
  records.foldl (fun acc r => acc.add (GoFloat.mulInt r.Quantity r.Price))
    (GoFloat.finite 0)

/-! Lemmas about the first loop of `AnalyzeData`. -/

-- The revenue component of the loop state is the plain left fold of the
-- accumulation step over the records.
theorem revenue_foldl (records : List SaleRecord) :
    ∀ st : LoopState, (records.foldl analyzeStep st).revenue =
      records.foldl (fun acc r => acc.add (GoFloat.mulInt r.Quantity r.Price)) st.revenue := by
  induction records with
  | nil => intro st; rfl
  | cons r rest ih =>
    intro st
    simpa [analyzeStep] using ih (analyzeStep st r)

/-- Keys of the association-list model of the product-quantity map. -/
def keys (m : List (String × Int)) : List String := m.map Prod.fst

/-- Reading the map with the zero default, as Go's `m[p]` does. -/
def lookupQty : List (String × Int) → String → Int
  | [], _ => 0
  | (k, v) :: rest, p => if k = p then v else lookupQty rest p

theorem lookupQty_bumpQty_self (m : List (String × Int)) (p : String) (q : Int) :
    lookupQty (bumpQty m p q) p = lookupQty m p + q := by
  induction m with
  | nil => simp [bumpQty, lookupQty]
  | cons e rest ih =>
    obtain ⟨k, v⟩ := e
    by_cases hk : k = p
    · simp [bumpQty, lookupQty, hk]
    · simp [bumpQty, lookupQty, hk, ih]

theorem lookupQty_bumpQty_ne (m : List (String × Int)) (p : String) (q : Int)
    (k : String) (h : k ≠ p) : lookupQty (bumpQty m p q) k = lookupQty m k := by
  induction m with
  | nil => simp [bumpQty, lookupQty, Ne.symm h]
  | cons e rest ih =>
    obtain ⟨k', v⟩ := e
    by_cases hk : k' = p
    · subst hk
      simp [bumpQty, lookupQty, Ne.symm h]
    · simp [bumpQty, lookupQty, hk, ih]

theorem keys_bumpQty (m : List (String × Int)) (p : String) (q : Int) :
    keys (bumpQty m p q) = if p ∈ keys m then keys m else keys m ++ [p] := by
  induction m with
  | nil => simp [bumpQty, keys]
  | cons e rest ih =>
    obtain ⟨k, v⟩ := e
    by_cases hk : k = p
    · simp [bumpQty, keys, hk]
    · have hne : ¬ p = k := fun h => hk h.symm
      by_cases hmem : p ∈ keys rest
      all_goals
        simp only [keys] at hmem
        simp only [bumpQty, if_neg hk, keys, List.map_cons] at ih ⊢
        simp [ih, hmem, hne]

theorem mem_keys_bumpQty (m : List (String × Int)) (p : String) (q : Int) (k : String) :
    k ∈ keys (bumpQty m p q) ↔ k ∈ keys m ∨ k = p := by
  rw [keys_bumpQty]
  by_cases hmem : p ∈ keys m
  · simp only [hmem, if_true]
    constructor
    · exact Or.inl
    · rintro (h | rfl)
      · exact h
      · exact hmem
  · simp [hmem]

theorem nodup_keys_bumpQty (m : List (String × Int)) (p : String) (q : Int)
    (h : (keys m).Nodup) : (keys (bumpQty m p q)).Nodup := by
  rw [keys_bumpQty]
  by_cases hmem : p ∈ keys m
  · simpa [hmem] using h
  · simp only [hmem, if_false]
    exact List.Nodup.append h (List.nodup_singleton p) (by simpa using hmem)

theorem sumQty_cons (r : SaleRecord) (rest : List SaleRecord) (p : String) :
    sumQty (r :: rest) p =
      if r.Product = p then r.Quantity + sumQty rest p else sumQty rest p := by
  by_cases h : r.Product = p
  · simp [sumQty, List.filter_cons, h]
  · simp [sumQty, List.filter_cons, h]

-- The quantities component of the loop state accumulates, for every key,
-- the summed quantity of the records seen so far.
theorem lookupQty_loop (records : List SaleRecord) :
    ∀ st : LoopState, ∀ p : String,
      lookupQty (records.foldl analyzeStep st).quantities p =
        lookupQty st.quantities p + sumQty records p := by
  induction records with
  | nil => intro st p; simp [sumQty]
  | cons r rest ih =>
    intro st p
    have hstep : (analyzeStep st r).quantities = bumpQty st.quantities r.Product r.Quantity := rfl
    rw [List.foldl_cons, ih (analyzeStep st r) p, hstep, sumQty_cons]
    by_cases h : r.Product = p
    · subst h
      rw [lookupQty_bumpQty_self]
      simp
      omega
    · rw [lookupQty_bumpQty_ne _ _ _ _ (fun he => h he.symm)]
      simp [h]

theorem mem_keys_loop (records : List SaleRecord) :
    ∀ st : LoopState, ∀ p : String,
      p ∈ keys (records.foldl analyzeStep st).quantities ↔
        p ∈ keys st.quantities ∨ p ∈ products records := by
  induction records with
  | nil => intro st p; simp [products]
  | cons r rest ih =>
    intro st p
    have hstep : (analyzeStep st r).quantities = bumpQty st.quantities r.Product r.Quantity := rfl
    rw [List.foldl_cons, ih (analyzeStep st r) p, hstep, mem_keys_bumpQty]
    simp [products]
    tauto

theorem nodup_keys_loop (records : List SaleRecord) :
    ∀ st : LoopState, (keys st.quantities).Nodup →
      (keys (records.foldl analyzeStep st).quantities).Nodup := by
  induction records with
  | nil => intro st h; exact h
  | cons r rest ih =>
    intro st h
    exact ih (analyzeStep st r) (nodup_keys_bumpQty _ _ _ h)

theorem lookupQty_accumQuantities (records : List SaleRecord) (p : String) :
    lookupQty (accumQuantities records) p = sumQty records p := by
  simpa [lookupQty] using lookupQty_loop records { revenue := GoFloat.finite 0, quantities := [] } p

theorem mem_keys_accumQuantities (records : List SaleRecord) (p : String) :
    p ∈ keys (accumQuantities records) ↔ p ∈ products records := by
  simpa [keys] using mem_keys_loop records { revenue := GoFloat.finite 0, quantities := [] } p

theorem nodup_keys_accumQuantities (records : List SaleRecord) :
    (keys (accumQuantities records)).Nodup :=
  nodup_keys_loop records { revenue := GoFloat.finite 0, quantities := [] } (by simp [keys])

theorem lookupQty_eq_of_mem (m : List (String × Int)) (k : String) (v : Int)
    (hnd : (keys m).Nodup) (hmem : (k, v) ∈ m) : lookupQty m k = v := by
  induction m with
  | nil => cases hmem
  | cons e rest ih =>
    obtain ⟨k', v'⟩ := e
    have hsplit := List.nodup_cons.mp (by simpa [keys] using hnd : (k' :: keys rest).Nodup)
    rcases List.mem_cons.mp hmem with he | he
    · cases he
      simp [lookupQty]
    · have hk : k' ≠ k := by
        rintro rfl
        exact hsplit.1 (by simpa [keys] using List.mem_map_of_mem Prod.fst he)
      simpa [lookupQty, if_neg hk] using ih (by simpa [keys] using hsplit.2) he

theorem mem_of_mem_keys (m : List (String × Int)) (p : String)
    (hmem : p ∈ keys m) : (p, lookupQty m p) ∈ m := by
  induction m with
  | nil => cases hmem
  | cons e rest ih =>
    obtain ⟨k, v⟩ := e
    by_cases hk : k = p
    · subst hk
      simp [lookupQty]
    · have : p ∈ keys rest := by
        rcases (by simpa [keys] using hmem : p = k ∨ p ∈ keys rest) with h | h
        · exact absurd h.symm hk
        · exact h
      simpa [lookupQty, hk] using Or.inr (ih this)

theorem mem_products_iff (records : List SaleRecord) (p : String) :
    p ∈ products records ↔ ∃ r ∈ records, r.Product = p := by
  simp [products]

theorem mem_products_of_mem (records : List SaleRecord) (r : SaleRecord)
    (h : r ∈ records) : r.Product ∈ products records :=
  (mem_products_iff records r.Product).mpr ⟨r, h, rfl⟩

-- Every entry of the accumulated per-product totals is a product of the
-- input together with its summed quantity.
theorem entry_accumQuantities (records : List SaleRecord) (k : String) (v : Int)
    (h : (k, v) ∈ accumQuantities records) :
    k ∈ products records ∧ v = sumQty records k := by
  have hkeys : k ∈ keys (accumQuantities records) := by
    simpa [keys] using List.mem_map_of_mem Prod.fst h
  refine ⟨(mem_keys_accumQuantities records k).mp hkeys, ?_⟩
  have := lookupQty_eq_of_mem (accumQuantities records) k v
    (nodup_keys_accumQuantities records) h
  rw [← this, lookupQty_accumQuantities]

-- Conversely every product of the input has its summed quantity as an
-- entry of the accumulated totals.
theorem product_mem_accumQuantities (records : List SaleRecord) (p : String)
    (h : p ∈ products records) : (p, sumQty records p) ∈ accumQuantities records := by
  have hkeys : p ∈ keys (accumQuantities records) :=
    (mem_keys_accumQuantities records p).mpr h
  have := mem_of_mem_keys (accumQuantities records) p hkeys
  rwa [lookupQty_accumQuantities] at this

/-! Lemmas about the second loop of `AnalyzeData` (the max-by-quantity
reduction), stated for an arbitrary visiting order. -/

theorem selectMax_fold_fst_le (l : List (String × Int)) :
    ∀ s : Int × String, s.1 ≤ (l.foldl selectMax s).1 := by
  induction l with
  | nil => intro s; exact le_refl _
  | cons e rest ih =>
    intro s
    refine le_trans ?_ (ih (selectMax s e))
    by_cases h : e.2 > s.1
    · simp [selectMax, h]
      exact le_of_lt h
    · simp [selectMax, h]

theorem le_selectMax_fold (l : List (String × Int)) :
    ∀ s : Int × String, ∀ e ∈ l, e.2 ≤ (l.foldl selectMax s).1 := by
  induction l with
  | nil => intro s e he; cases he
  | cons e' rest ih =>
    intro s e he
    rcases List.mem_cons.mp he with rfl | hmem
    · refine le_trans ?_ (selectMax_fold_fst_le rest (selectMax s e))
      by_cases h : e.2 > s.1
      · simp [selectMax, h]
      · simp only [selectMax, if_neg h]
        omega
    · exact ih (selectMax s e') e hmem

theorem selectMax_fold_cases (l : List (String × Int)) :
    ∀ s : Int × String, l.foldl selectMax s = s ∨ ∃ e ∈ l, l.foldl selectMax s = (e.2, e.1) := by
  induction l with
  | nil => intro s; exact Or.inl rfl
  | cons e rest ih =>
    intro s
    by_cases h : e.2 > s.1
    · have hsel : selectMax s e = (e.2, e.1) := by simp [selectMax, h]
      rcases ih (selectMax s e) with hcase | ⟨e', he', heq⟩
      · refine Or.inr ⟨e, List.mem_cons_self e rest, ?_⟩
        rw [List.foldl_cons, hcase, hsel]
      · exact Or.inr ⟨e', List.mem_cons_of_mem e he', by rw [List.foldl_cons, heq]⟩
    · have hsel : selectMax s e = s := by simp [selectMax, h]
      rcases ih (selectMax s e) with hcase | ⟨e', he', heq⟩
      · exact Or.inl (by rw [List.foldl_cons, hcase, hsel])
      · exact Or.inr ⟨e', List.mem_cons_of_mem e he', by rw [List.foldl_cons, heq]⟩

theorem selectMax_fold_id (l : List (String × Int)) :
    ∀ s : Int × String, (∀ e ∈ l, e.2 ≤ s.1) → l.foldl selectMax s = s := by
  induction l with
  | nil => intro s _; rfl
  | cons e rest ih =>
    intro s hle
    have h : ¬ e.2 > s.1 := not_lt.mpr (hle e (List.mem_cons_self e rest))
    have hsel : selectMax s e = s := by simp [selectMax, h]
    rw [List.foldl_cons, hsel]
    exact ih s (fun e' he' => hle e' (List.mem_cons_of_mem e he'))

-- When some product's summed quantity is strictly positive, the second
-- loop, run in any order of the accumulated totals, returns a strictly
-- positive maximum achieved by a product of the input, and that maximum
-- bounds every product's summed quantity.
theorem selectMax_fold_positive (records : List SaleRecord) (order : List (String × Int))
    (hperm : List.Perm order (accumQuantities records))
    (hpos : ∃ r ∈ records, 0 < sumQty records r.Product) :
    0 < (order.foldl selectMax (0, "")).1 ∧
      (order.foldl selectMax (0, "")).2 ∈ products records ∧
      sumQty records (order.foldl selectMax (0, "")).2 = (order.foldl selectMax (0, "")).1 ∧
      ∀ p ∈ products records, sumQty records p ≤ (order.foldl selectMax (0, "")).1 := by
  obtain ⟨r, hr, hq⟩ := hpos
  have hub : ∀ p ∈ products records, sumQty records p ≤ (order.foldl selectMax (0, "")).1 := by
    intro p hp
    have hmem : (p, sumQty records p) ∈ order :=
      hperm.mem_iff.mpr (product_mem_accumQuantities records p hp)
    exact le_selectMax_fold order (0, "") (p, sumQty records p) hmem
  have hpos1 : 0 < (order.foldl selectMax (0, "")).1 :=
    lt_of_lt_of_le hq (hub r.Product (mem_products_of_mem records r hr))
  rcases selectMax_fold_cases order (0, "") with hcase | ⟨e, he, heq⟩
  · rw [hcase] at hpos1
    exact absurd hpos1 (lt_irrefl 0)
  · have he' : e ∈ accumQuantities records := hperm.mem_iff.mp he
    obtain ⟨hk, hv⟩ := entry_accumQuantities records e.1 e.2 (by simpa using he')
    rw [heq]
    exact ⟨by rw [heq] at hpos1; exact hpos1, hk, hv.symm, by rw [← heq]; exact hub⟩

-- When no product's summed quantity is strictly positive, the second
-- loop keeps its initial state: maximum 0 and the empty key.
theorem selectMax_fold_nonpositive (records : List SaleRecord) (order : List (String × Int))
    (hperm : List.Perm order (accumQuantities records))
    (hneg : ∀ r ∈ records, sumQty records r.Product ≤ 0) :
    order.foldl selectMax (0, "") = (0, "") := by
  refine selectMax_fold_id order (0, "") ?_
  intro e he
  have he' : e ∈ accumQuantities records := hperm.mem_iff.mp he
  obtain ⟨hk, hv⟩ := entry_accumQuantities records e.1 e.2 (by simpa using he')
  obtain ⟨r, hr, hrp⟩ := (mem_products_iff records e.1).mp hk
  have := hneg r hr
  rw [hrp] at this
  simpa [hv] using this

theorem analyzeDataOrd_most (records : List SaleRecord) (order : List (String × Int)) :
    (AnalyzeDataOrd records order).MostPopularProduct = (order.foldl selectMax (0, "")).2 := rfl

theorem analyzeDataOrd_max (records : List SaleRecord) (order : List (String × Int)) :
    (AnalyzeDataOrd records order).MaxQuantitySoldUnits = (order.foldl selectMax (0, "")).1 := rfl

-- A record of a strictly-positive-quantity input contributes a strictly
-- positive summed quantity for its own product.
theorem sumQty_pos_of_mem (records : List SaleRecord) (r : SaleRecord)
    (hr : r ∈ records) (hq : ∀ x ∈ records, 0 < x.Quantity) :
    0 < sumQty records r.Product := by
  have hfil : r ∈ records.filter (fun x => x.Product == r.Product) :=
    List.mem_filter.mpr ⟨hr, by simp⟩
  unfold sumQty
  refine List.sum_pos _ (fun x hx => ?_) ?_
  · obtain ⟨y, hy, rfl⟩ := List.mem_map.mp hx
    exact hq y (List.mem_filter.mp hy).1
  · exact List.ne_nil_of_mem (List.mem_map_of_mem SaleRecord.Quantity hfil)

/-! Claim theorems. -/

/-- C2: for every input sequence of records and every map iteration
order, `AnalyzeData` returns a `TotalRevenue` equal to the left-to-right
fold, in input order, starting at `0.0`, of the accumulation
`acc + quantity × price` over the records. -/
theorem analyzeData_totalRevenue_fold (records : List SaleRecord)
    (order : List (String × Int)) :
    (AnalyzeDataOrd records order).TotalRevenue = revenueFold records := by
  show (records.foldl analyzeStep { revenue := GoFloat.finite 0, quantities := [] }).revenue = _
  rw [revenue_foldl]
  rfl

/-- C7: for every input sequence of records and every map iteration
order, the `TotalTransactions` field of the result of `AnalyzeData`
equals the length of the input sequence (`0` for the empty sequence). -/
theorem analyzeData_totalTransactions_length (records : List SaleRecord)
    (order : List (String × Int)) :
    (AnalyzeDataOrd records order).TotalTransactions = records.length := rfl

/-- C4: the second pass of `AnalyzeData` is the fold of `selectMax` over
the per-product totals starting from maximum `0` and the empty key; a
total strictly greater than the running maximum installs that total and
its key, and a total equal to the running maximum leaves the incumbent
state unchanged. -/
theorem analyzeData_secondPass_reduction :
    (∀ (records : List SaleRecord) (order : List (String × Int)),
       ((AnalyzeDataOrd records order).MaxQuantitySoldUnits,
         (AnalyzeDataOrd records order).MostPopularProduct) = order.foldl selectMax (0, "")) ∧
    (∀ (m : Int) (k p : String) (q : Int),
       selectMax (m, k) (p, q) = if m < q then (q, p) else (m, k)) ∧
    (∀ (m : Int) (k p : String), selectMax (m, k) (p, m) = (m, k)) :=
  ⟨fun _ _ => rfl, fun _ _ _ _ => rfl, fun m _ p => by simp [selectMax]⟩

/-- C1 counterexample: for the one-record input with quantity `-1` the
claim fails — `MostPopularProduct` is the empty string, which is not a
product key of the input, and `MaxQuantitySoldUnits` is `0`, not the
maximum summed quantity `-1`. -/
theorem analyzeData_mostPopular_cex :
    ¬ ((AnalyzeData [(⟨"d", "A", -1, GoFloat.finite 1⟩ : SaleRecord)]).MostPopularProduct
        ∈ products [(⟨"d", "A", -1, GoFloat.finite 1⟩ : SaleRecord)] ∧
      (AnalyzeData [(⟨"d", "A", -1, GoFloat.finite 1⟩ : SaleRecord)]).MaxQuantitySoldUnits
        = sumQty [(⟨"d", "A", -1, GoFloat.finite 1⟩ : SaleRecord)] "A") := by decide

/-- C1 (amended): for every input sequence in which at least one
product's summed quantity is strictly positive, and for every map
iteration order, `MostPopularProduct` is a product key appearing in some
input record and `MaxQuantitySoldUnits` is the maximum, over the product
keys of the input, of the summed quantity of that key (achieved by
`MostPopularProduct` and bounding every key's sum). -/
theorem analyzeData_mostPopular_appears (records : List SaleRecord)
    (order : List (String × Int))
    (hperm : List.Perm order (accumQuantities records))
    (hpos : ∃ r ∈ records, 0 < sumQty records r.Product) :
    (AnalyzeDataOrd records order).MostPopularProduct ∈ products records ∧
    sumQty records (AnalyzeDataOrd records order).MostPopularProduct
      = (AnalyzeDataOrd records order).MaxQuantitySoldUnits ∧
    ∀ p ∈ products records,
      sumQty records p ≤ (AnalyzeDataOrd records order).MaxQuantitySoldUnits := by
  obtain ⟨_, hmem, hach, hub⟩ := selectMax_fold_positive records order hperm hpos
  exact ⟨by rw [analyzeDataOrd_most]; exact hmem,
    by rw [analyzeDataOrd_most, analyzeDataOrd_max]; exact hach,
    by rw [analyzeDataOrd_max]; exact hub⟩

/-- C1 witness: the amended claim evaluated on the three-record test
vector, whose most popular product is `ProductA` with 12 units. -/
theorem analyzeData_mostPopular_appears_witness :
    (AnalyzeDataOrd
        [⟨"2023", "ProductA", 10, GoFloat.finite 5⟩,
         ⟨"2023", "ProductB", 5, GoFloat.finite 20⟩,
         ⟨"2023", "ProductA", 2, GoFloat.finite 5⟩]
        (accumQuantities
          [⟨"2023", "ProductA", 10, GoFloat.finite 5⟩,
           ⟨"2023", "ProductB", 5, GoFloat.finite 20⟩,
           ⟨"2023", "ProductA", 2, GoFloat.finite 5⟩])).MostPopularProduct
      ∈ products
        [⟨"2023", "ProductA", 10, GoFloat.finite 5⟩,
         ⟨"2023", "ProductB", 5, GoFloat.finite 20⟩,
         ⟨"2023", "ProductA", 2, GoFloat.finite 5⟩] ∧
    sumQty
        [⟨"2023", "ProductA", 10, GoFloat.finite 5⟩,
         ⟨"2023", "ProductB", 5, GoFloat.finite 20⟩,
         ⟨"2023", "ProductA", 2, GoFloat.finite 5⟩]
        (AnalyzeDataOrd
          [⟨"2023", "ProductA", 10, GoFloat.finite 5⟩,
           ⟨"2023", "ProductB", 5, GoFloat.finite 20⟩,
           ⟨"2023", "ProductA", 2, GoFloat.finite 5⟩]
          (accumQuantities
            [⟨"2023", "ProductA", 10, GoFloat.finite 5⟩,
             ⟨"2023", "ProductB", 5, GoFloat.finite 20⟩,
             ⟨"2023", "ProductA", 2, GoFloat.finite 5⟩])).MostPopularProduct
      = (AnalyzeDataOrd
          [⟨"2023", "ProductA", 10, GoFloat.finite 5⟩,
           ⟨"2023", "ProductB", 5, GoFloat.finite 20⟩,
           ⟨"2023", "ProductA", 2, GoFloat.finite 5⟩]
          (accumQuantities
            [⟨"2023", "ProductA", 10, GoFloat.finite 5⟩,
             ⟨"2023", "ProductB", 5, GoFloat.finite 20⟩,
             ⟨"2023", "ProductA", 2, GoFloat.finite 5⟩])).MaxQuantitySoldUnits ∧
    ∀ p ∈ products
        [⟨"2023", "ProductA", 10, GoFloat.finite 5⟩,
         ⟨"2023", "ProductB", 5, GoFloat.finite 20⟩,
         ⟨"2023", "ProductA", 2, GoFloat.finite 5⟩],
      sumQty
          [⟨"2023", "ProductA", 10, GoFloat.finite 5⟩,
           ⟨"2023", "ProductB", 5, GoFloat.finite 20⟩,
           ⟨"2023", "ProductA", 2, GoFloat.finite 5⟩] p
        ≤ (AnalyzeDataOrd
            [⟨"2023", "ProductA", 10, GoFloat.finite 5⟩,
             ⟨"2023", "ProductB", 5, GoFloat.finite 20⟩,
             ⟨"2023", "ProductA", 2, GoFloat.finite 5⟩]
            (accumQuantities
              [⟨"2023", "ProductA", 10, GoFloat.finite 5⟩,
               ⟨"2023", "ProductB", 5, GoFloat.finite 20⟩,
               ⟨"2023", "ProductA", 2, GoFloat.finite 5⟩])).MaxQuantitySoldUnits :=
  analyzeData_mostPopular_appears _ _ (List.Perm.refl _)
    ⟨⟨"2023", "ProductA", 10, GoFloat.finite 5⟩, by decide, by decide⟩

/-- C10: for every input sequence and every map iteration order: when at
least one product's summed quantity is strictly positive,
`MaxQuantitySoldUnits` is strictly positive, `MostPopularProduct` is a
product key of the input and its summed quantity equals
`MaxQuantitySoldUnits`; when no product's summed quantity is strictly
positive, `MaxQuantitySoldUnits` is `0` and `MostPopularProduct` is the
empty string. -/
theorem analyzeData_max_dichotomy (records : List SaleRecord)
    (order : List (String × Int))
    (hperm : List.Perm order (accumQuantities records)) :
    ((∃ r ∈ records, 0 < sumQty records r.Product) →
       0 < (AnalyzeDataOrd records order).MaxQuantitySoldUnits ∧
       (AnalyzeDataOrd records order).MostPopularProduct ∈ products records ∧
       sumQty records (AnalyzeDataOrd records order).MostPopularProduct
         = (AnalyzeDataOrd records order).MaxQuantitySoldUnits) ∧
    ((∀ r ∈ records, sumQty records r.Product ≤ 0) →
       (AnalyzeDataOrd records order).MaxQuantitySoldUnits = 0 ∧
       (AnalyzeDataOrd records order).MostPopularProduct = "") := by
  constructor
  · intro hpos
    obtain ⟨hzero, hmem, hach, _⟩ := selectMax_fold_positive records order hperm hpos
    exact ⟨by rw [analyzeDataOrd_max]; exact hzero,
      by rw [analyzeDataOrd_most]; exact hmem,
      by rw [analyzeDataOrd_most, analyzeDataOrd_max]; exact hach⟩
  · intro hneg
    have h := selectMax_fold_nonpositive records order hperm hneg
    constructor
    · rw [analyzeDataOrd_max, h]
    · rw [analyzeDataOrd_most, h]

/-- C10 witness: the dichotomy evaluated on the single-record test
vector (`ProductZ`, one unit), in the positive branch. -/
theorem analyzeData_max_dichotomy_witness :
    0 < (AnalyzeDataOrd [⟨"2023", "ProductZ", 1, GoFloat.finite 99⟩]
          (accumQuantities [⟨"2023", "ProductZ", 1, GoFloat.finite 99⟩])).MaxQuantitySoldUnits ∧
    (AnalyzeDataOrd [⟨"2023", "ProductZ", 1, GoFloat.finite 99⟩]
        (accumQuantities [⟨"2023", "ProductZ", 1, GoFloat.finite 99⟩])).MostPopularProduct
      ∈ products [⟨"2023", "ProductZ", 1, GoFloat.finite 99⟩] ∧
    sumQty [⟨"2023", "ProductZ", 1, GoFloat.finite 99⟩]
        (AnalyzeDataOrd [⟨"2023", "ProductZ", 1, GoFloat.finite 99⟩]
          (accumQuantities [⟨"2023", "ProductZ", 1, GoFloat.finite 99⟩])).MostPopularProduct
      = (AnalyzeDataOrd [⟨"2023", "ProductZ", 1, GoFloat.finite 99⟩]
          (accumQuantities [⟨"2023", "ProductZ", 1, GoFloat.finite 99⟩])).MaxQuantitySoldUnits :=
  (analyzeData_max_dichotomy _ _ (List.Perm.refl _)).1
    ⟨⟨"2023", "ProductZ", 1, GoFloat.finite 99⟩, by decide, by decide⟩

/-- C3 counterexample: the one-record input with quantity `0` has
non-negative quantities, `MostPopularProduct` equal to the empty string
and `TotalTransactions` equal to `1`, so the first "if and only if" of
the claimed invariant fails. -/
theorem analyzeData_empty_iff_cex :
    (∀ r ∈ ([⟨"d", "B", 0, GoFloat.finite 2⟩] : List SaleRecord), 0 ≤ r.Quantity) ∧
    ¬ (((AnalyzeData [(⟨"d", "B", 0, GoFloat.finite 2⟩ : SaleRecord)]).MostPopularProduct = "") ↔
       ((AnalyzeData [(⟨"d", "B", 0, GoFloat.finite 2⟩ : SaleRecord)]).TotalTransactions = 0)) := by decide

/-- C3 (amended): for every input sequence whose quantities are all
strictly positive and whose product keys are all non-empty, and for
every map iteration order, `MostPopularProduct` is the empty string if
and only if `TotalTransactions` is `0`, if and only if
`MaxQuantitySoldUnits` is `0`. -/
theorem analyzeData_empty_iff (records : List SaleRecord)
    (order : List (String × Int))
    (hperm : List.Perm order (accumQuantities records))
    (hq : ∀ r ∈ records, 0 < r.Quantity)
    (hp : ∀ r ∈ records, r.Product ≠ "") :
    (((AnalyzeDataOrd records order).MostPopularProduct = "") ↔
       ((AnalyzeDataOrd records order).TotalTransactions = 0)) ∧
    (((AnalyzeDataOrd records order).TotalTransactions = 0) ↔
       ((AnalyzeDataOrd records order).MaxQuantitySoldUnits = 0)) := by
  cases records with
  | nil =>
    have horder : order = [] := hperm.eq_nil
    subst horder
    constructor <;> simp [AnalyzeDataOrd]
  | cons r rest =>
    have hpos : ∃ x ∈ r :: rest, 0 < sumQty (r :: rest) x.Product :=
      ⟨r, List.mem_cons_self r rest, sumQty_pos_of_mem _ r (List.mem_cons_self r rest) hq⟩
    obtain ⟨hzero, hmem, _, _⟩ := selectMax_fold_positive (r :: rest) order hperm hpos
    have hmost : (AnalyzeDataOrd (r :: rest) order).MostPopularProduct ≠ "" := by
      rw [analyzeDataOrd_most]
      obtain ⟨x, hx, hxp⟩ := (mem_products_iff _ _).mp hmem
      rw [← hxp]
      exact hp x hx
    have htrans : (AnalyzeDataOrd (r :: rest) order).TotalTransactions ≠ 0 := by
      show rest.length + 1 ≠ 0
      omega
    have hmax : (AnalyzeDataOrd (r :: rest) order).MaxQuantitySoldUnits ≠ 0 := by
      rw [analyzeDataOrd_max]
      omega
    exact ⟨iff_of_false hmost htrans, iff_of_false htrans hmax⟩

/-- C3 witness: the amended invariant evaluated on a two-record input
with positive quantities and non-empty product keys. -/
theorem analyzeData_empty_iff_witness :
    (((AnalyzeDataOrd
        [⟨"2023-10-01", "Laptop", 2, GoFloat.finite 1200⟩,
         ⟨"2023-10-02", "Mouse", 10, GoFloat.finite 25⟩]
        (accumQuantities
          [⟨"2023-10-01", "Laptop", 2, GoFloat.finite 1200⟩,
           ⟨"2023-10-02", "Mouse", 10, GoFloat.finite 25⟩])).MostPopularProduct = "") ↔
      ((AnalyzeDataOrd
        [⟨"2023-10-01", "Laptop", 2, GoFloat.finite 1200⟩,
         ⟨"2023-10-02", "Mouse", 10, GoFloat.finite 25⟩]
        (accumQuantities
          [⟨"2023-10-01", "Laptop", 2, GoFloat.finite 1200⟩,
           ⟨"2023-10-02", "Mouse", 10, GoFloat.finite 25⟩])).TotalTransactions = 0)) ∧
    (((AnalyzeDataOrd
        [⟨"2023-10-01", "Laptop", 2, GoFloat.finite 1200⟩,
         ⟨"2023-10-02", "Mouse", 10, GoFloat.finite 25⟩]
        (accumQuantities
          [⟨"2023-10-01", "Laptop", 2, GoFloat.finite 1200⟩,
           ⟨"2023-10-02", "Mouse", 10, GoFloat.finite 25⟩])).TotalTransactions = 0) ↔
      ((AnalyzeDataOrd
        [⟨"2023-10-01", "Laptop", 2, GoFloat.finite 1200⟩,
         ⟨"2023-10-02", "Mouse", 10, GoFloat.finite 25⟩]
        (accumQuantities
          [⟨"2023-10-01", "Laptop", 2, GoFloat.finite 1200⟩,
           ⟨"2023-10-02", "Mouse", 10, GoFloat.finite 25⟩])).MaxQuantitySoldUnits = 0)) :=
  analyzeData_empty_iff _ _ (List.Perm.refl _) (by decide) (by decide)

/-! Lemmas about `ParseCSV`'s row loop. -/

-- On a failure-free stream the loop keeps exactly the rows accepted by
-- the per-row validation, appended in input order.
theorem parseLoop_rows (rows : List (List String)) :
    ∀ acc : List SaleRecord,
      parseLoop (rows.map ReadEvent.row) acc = some (acc ++ rows.filterMap parseRow) := by
  induction rows with
  | nil => intro acc; simp [parseLoop]
  | cons r rest ih =>
    intro acc
    cases h : parseRow r with
    | none => simp [parseLoop, h, ih acc, List.filterMap_cons]
    | some rec => simp [parseLoop, h, ih (acc ++ [rec]), List.filterMap_cons]

-- The loop fails exactly when the stream holds a read failure.
theorem parseLoop_eq_none_iff (events : List ReadEvent) :
    ∀ acc : List SaleRecord,
      parseLoop events acc = none ↔ ReadEvent.failure ∈ events := by
  induction events with
  | nil => intro acc; simp [parseLoop]
  | cons e rest ih =>
    intro acc
    cases e with
    | failure => simp [parseLoop]
    | row fields =>
      cases h : parseRow fields with
      | none => simp [parseLoop, h, ih acc]
      | some rec => simp [parseLoop, h, ih (acc ++ [rec])]

/-- C5: on a source whose reads all succeed, `ParseCSV` returns exactly
the data rows accepted by the per-row validation, in input order; a row
is rejected precisely when its field count differs from 4, or its third
field does not parse as an integer, or its fourth field does not parse
as a floating-point number; and an accepted row becomes the `SaleRecord`
holding its four parsed fields. -/
theorem parseCSV_skips_invalid_rows :
    (∀ (hdr : List String) (rows : List (List String)),
       ParseCSV (some (ReadEvent.row hdr :: rows.map ReadEvent.row))
         = Except.ok (rows.filterMap parseRow)) ∧
    (∀ row : List String, parseRow row = none ↔
       (row.length ≠ 4 ∨ Atoi (row.getD 2 "") = none ∨ ParseFloat (row.getD 3 "") = none)) ∧
    (∀ (row : List String) (rec : SaleRecord), parseRow row = some rec →
       row.length = 4 ∧ Atoi (row.getD 2 "") = some rec.Quantity ∧
       ParseFloat (row.getD 3 "") = some rec.Price ∧
       rec.Date = row.getD 0 "" ∧ rec.Product = row.getD 1 "") := by
  refine ⟨fun hdr rows => ?_, fun row => ?_, fun row rec h => ?_⟩
  · simp [ParseCSV, parseLoop_rows rows []]
  · unfold parseRow
    by_cases hlen : row.length ≠ 4
    · simp [hlen]
    · cases hA : Atoi (row.getD 2 "") with
      | none => simp [hlen, hA]
      | some q =>
        cases hP : ParseFloat (row.getD 3 "") with
        | none => simp [hlen, hA, hP]
        | some v => simp [hlen, hA, hP]
  · unfold parseRow at h
    by_cases hlen : row.length ≠ 4
    · simp [hlen] at h
    · rw [if_neg hlen] at h
      cases hA : Atoi (row.getD 2 "") with
      | none => rw [hA] at h; cases h
      | some q =>
        rw [hA] at h
        cases hP : ParseFloat (row.getD 3 "") with
        | none => rw [hP] at h; cases h
        | some v =>
          rw [hP] at h
          cases h
          exact ⟨by omega, rfl, rfl, rfl, rfl⟩

/-- C6: `ParseCSV` returns an error exactly when opening the source
fails or some read of the stream fails with a non-EOF error; a failure
event anywhere after the header yields the row-read error and no records
regardless of the rows already parsed; and a failure-free stream always
parses successfully (end of input is never an error). -/
theorem parseCSV_error_characterisation :
    (∀ src : Option (List ReadEvent),
       (∃ e, ParseCSV src = Except.error e) ↔
         (src = none ∨ ∃ events, src = some events ∧ ReadEvent.failure ∈ events)) ∧
    (∀ (hdr : List String) (pre post : List ReadEvent),
       ParseCSV (some (ReadEvent.row hdr :: (pre ++ ReadEvent.failure :: post)))
         = Except.error ParseErr.rowReadFailed) ∧
    (∀ events : List ReadEvent, ReadEvent.failure ∉ events →
       ∃ records, ParseCSV (some events) = Except.ok records) := by
  have hrow : ∀ (hdr : List String) (rest : List ReadEvent),
      ParseCSV (some (ReadEvent.row hdr :: rest))
        = match parseLoop rest [] with
          | none => Except.error ParseErr.rowReadFailed
          | some records => Except.ok records := fun hdr rest => rfl
  refine ⟨fun src => ?_, fun hdr pre post => ?_, fun events hnf => ?_⟩
  · cases src with
    | none => simp [ParseCSV]
    | some events =>
      cases events with
      | nil => simp [ParseCSV]
      | cons e rest =>
        cases e with
        | failure => simp [ParseCSV]
        | row fields =>
          rw [hrow]
          cases h : parseLoop rest [] with
          | none =>
            have := (parseLoop_eq_none_iff rest []).mp h
            simp [this]
          | some records =>
            have : ReadEvent.failure ∉ rest := fun hmem =>
              by rw [(parseLoop_eq_none_iff rest []).mpr hmem] at h; cases h
            simp [this]
  · rw [hrow]
    have hmem : ReadEvent.failure ∈ pre ++ ReadEvent.failure :: post := by simp
    rw [(parseLoop_eq_none_iff _ []).mpr hmem]
  · cases events with
    | nil => exact ⟨[], rfl⟩
    | cons e rest =>
      cases e with
      | failure => exact absurd (List.mem_cons_self _ _) hnf
      | row fields =>
        have hrest : ReadEvent.failure ∉ rest := fun hmem =>
          hnf (List.mem_cons_of_mem _ hmem)
        cases h : parseLoop rest [] with
        | none => exact absurd ((parseLoop_eq_none_iff rest []).mp h) hrest
        | some records =>
          refine ⟨records, ?_⟩
          rw [hrow, h]

/-- C8: a data row whose price field is a textual "NaN" or "Inf" is
accepted — it is not skipped and becomes a `SaleRecord` carrying the
special value — provided its quantity field parses. -/
theorem parseRow_accepts_special_price (d p qs : String) (q : Int)
    (h : Atoi qs = some q) :
    parseRow [d, p, qs, "NaN"] = some ⟨d, p, q, GoFloat.nan⟩ ∧
    parseRow [d, p, qs, "Inf"] = some ⟨d, p, q, GoFloat.posInf⟩ ∧
    ParseFloat "NaN" = some GoFloat.nan ∧
    ParseFloat "Inf" = some GoFloat.posInf := by
  have hN : ParseFloat "NaN" = some GoFloat.nan := by decide
  have hI : ParseFloat "Inf" = some GoFloat.posInf := by decide
  refine ⟨?_, ?_, hN, hI⟩
  · unfold parseRow
    simp [h, hN]
  · unfold parseRow
    simp [h, hI]

/-- C8 witness: the Laptop row with price "NaN" and the same row with
price "Inf" are both accepted with the special price value. -/
theorem parseRow_accepts_special_price_witness :
    parseRow ["2023-10-01", "Laptop", "2", "NaN"]
      = some ⟨"2023-10-01", "Laptop", 2, GoFloat.nan⟩ ∧
    parseRow ["2023-10-01", "Laptop", "2", "Inf"]
      = some ⟨"2023-10-01", "Laptop", 2, GoFloat.posInf⟩ ∧
    ParseFloat "NaN" = some GoFloat.nan ∧
    ParseFloat "Inf" = some GoFloat.posInf :=
  parseRow_accepts_special_price "2023-10-01" "Laptop" "2" 2 (by decide)

/-- C9: parsing a completely empty source succeeds with no records (the
EOF met while reading the header is tolerated), and parsing a source
holding only a header line also succeeds with no records. -/
theorem parseCSV_tolerates_empty_source :
    ParseCSV (some []) = Except.ok [] ∧
    ∀ hdr : List String, ParseCSV (some [ReadEvent.row hdr]) = Except.ok [] :=
  ⟨rfl, fun _ => rfl⟩

end SalesAnalysis
